import Mathlib

/-!
Verification of the Scene storage subsystem of this repository.

The Scene implementation itself is not among the given source files (only its
test suite `tests/commit/field/test__scene.py` and an unrelated import shim
are), so the data model and the operations below are modelled from the
specification: directory naming (PathNaming), the property store
(PropertiesStore), per-frame field files (FieldCodec), the Scene aggregate
(SceneDirectorySet), batch-shape reconciliation (BatchReconciler) and scene
listing (SceneRegistry).  Field payloads are opaque slice values of an
arbitrary type `α` together with a metadata tag (e.g. the extrapolation tag),
exactly as the specification's FieldCodec boundary describes.
-/

set_option autoImplicit false

namespace PhiScene

/-- A batch shape: an ordered mapping from dimension name to size. -/
abbrev Shape := List (String × Nat)

/-- Modelled from the spec: the batch volume of a shape is the product of its
dimension sizes (`product(S.values())`). -/
def volume : Shape → Nat
  | [] => 1
  | p :: rest => p.2 * volume rest

/-- Association-list lookup: first entry whose key equals `k`. -/
def alookup {κ β : Type} [DecidableEq κ] (k : κ) : List (κ × β) → Option β
  | [] => none
  | p :: rest => if p.1 = k then some p.2 else alookup k rest

/-- Position of the first occurrence of `p` in a list (length if absent). -/
def posOf {β : Type} [DecidableEq β] (p : β) : List β → Nat
  | [] => 0
  | q :: rest => if q = p then 0 else posOf p rest + 1

/-- Coordinate of flat index `i` along dimension `d` of shape `S`
(row-major, first dimension outermost; 0 if `d` is not a dimension of `S`). -/
def coordOf : Shape → Nat → String → Nat
  | [], _, _ => 0
  | p :: rest, i, d => if p.1 = d then i / volume rest else coordOf rest (i % volume rest) d

/-- Flatten a coordinate assignment (by dimension name) into a flat index of
shape `D` (row-major). -/
def flatOf : Shape → (String → Nat) → Nat
  | [], _ => 0
  | p :: rest, c => c p.1 * volume rest + flatOf rest c

/-- Project a flat index `i` of shape `S` to the flat index of the sub-shape
`D`: take the coordinates of `i` along `D`'s dimensions and flatten. -/
def projIndex (S D : Shape) (i : Nat) : Nat :=
  flatOf D (coordOf S i)

/-- `D` is a sub-shape of `S`: every dimension of `D` occurs in `S` with the
same size. -/
def SubShape (D S : Shape) : Prop :=
  ∀ p ∈ D, alookup p.1 S = some p.2

instance (D S : Shape) : Decidable (SubShape D S) :=
  List.decidableBAll _ D

/-- A shape is well formed if its dimension names are distinct and all its
sizes are positive. -/
def okShape (S : Shape) : Prop :=
  (S.map Prod.fst).Nodup ∧ ∀ p ∈ S, 0 < p.2

instance (S : Shape) : Decidable (okShape S) :=
  inferInstanceAs (Decidable (_ ∧ _))

theorem volume_pos {S : Shape} (h : ∀ p ∈ S, 0 < p.2) : 0 < volume S := by
  induction S with
  | nil => simp [volume]
  | cons p rest ih =>
      have hp := h p (by simp)
      have hr := ih (fun q hq => h q (by simp [hq]))
      simpa [volume] using Nat.mul_pos hp hr

theorem volume_append (A B : Shape) : volume (A ++ B) = volume A * volume B := by
  induction A with
  | nil => simp [volume]
  | cons p rest ih => simp [volume, ih, Nat.mul_assoc]

theorem alookup_eq_none {κ β : Type} [DecidableEq κ] {k : κ} {l : List (κ × β)}
    (h : k ∉ l.map Prod.fst) : alookup k l = none := by
  induction l with
  | nil => rfl
  | cons p rest ih =>
      simp only [List.map_cons, List.mem_cons] at h
      push_neg at h
      simp [alookup, Ne.symm h.1, ih h.2]

theorem alookup_mem {κ β : Type} [DecidableEq κ] {k : κ} {v : β} {l : List (κ × β)}
    (h : alookup k l = some v) : (k, v) ∈ l := by
  induction l with
  | nil => simp [alookup] at h
  | cons p rest ih =>
      by_cases hk : p.1 = k
      · simp only [alookup, if_pos hk] at h
        have hp : p = (k, v) := by
          cases p
          cases h
          cases hk
          rfl
        rw [hp]
        exact List.mem_cons_self _ _
      · simp only [alookup, if_neg hk] at h
        exact List.mem_cons_of_mem _ (ih h)

theorem alookup_self {β : Type} {l : List (String × β)}
    (hn : (l.map Prod.fst).Nodup) : ∀ p ∈ l, alookup p.1 l = some p.2 := by
  induction l with
  | nil => intro p hp; simp at hp
  | cons q rest ih =>
      intro p hp
      rcases List.mem_cons.mp hp with hq | hr
      · subst hq; simp [alookup]
      · have hne : q.1 ≠ p.1 := by
          intro hEq
          have : p.1 ∈ rest.map Prod.fst := List.mem_map_of_mem Prod.fst hr
          rw [← hEq] at this
          exact (List.nodup_cons.mp hn).1 this
        have := ih (List.nodup_cons.mp hn).2 p hr
        simp [alookup, hne, this]

theorem alookup_append_left {κ β : Type} [DecidableEq κ] {k : κ} {v : β}
    {l r : List (κ × β)} (h : alookup k l = some v) :
    alookup k (l ++ r) = some v := by
  induction l with
  | nil => simp [alookup] at h
  | cons p rest ih =>
      by_cases hk : p.1 = k
      · simp only [alookup, if_pos hk] at h ⊢
        exact h
      · simp only [alookup, if_neg hk] at h ⊢
        exact ih h

theorem alookup_append_right {κ β : Type} [DecidableEq κ] {k : κ}
    {l r : List (κ × β)} (h : alookup k l = none) :
    alookup k (l ++ r) = alookup k r := by
  induction l with
  | nil => rfl
  | cons p rest ih =>
      by_cases hk : p.1 = k
      · simp [alookup, if_pos hk] at h
      · simp only [alookup, if_neg hk] at h
        simp only [List.cons_append, alookup, if_neg hk]
        exact ih h

theorem alookup_map_value {κ β γ : Type} [DecidableEq κ] (k : κ)
    (t : κ → β → γ) (l : List (κ × β)) :
    alookup k (l.map (fun p => (p.1, t p.1 p.2))) = (alookup k l).map (t k) := by
  induction l with
  | nil => rfl
  | cons p rest ih =>
      by_cases hk : p.1 = k
      · subst hk; simp [alookup]
      · simp [alookup, hk, ih]

theorem posOf_getElem {β : Type} [DecidableEq β] {l : List β} (hn : l.Nodup) :
    ∀ i : Nat, (h : i < l.length) → posOf l[i] l = i := by
  induction l with
  | nil => intro i h; simp at h
  | cons q rest ih =>
      intro i h
      cases i with
      | zero => simp [posOf]
      | succ j =>
          have hj : j < rest.length := by simpa using h
          have hmem : rest[j] ∈ rest := List.getElem_mem hj
          have hne : q ≠ rest[j] := by
            intro hEq
            exact (List.nodup_cons.mp hn).1 (hEq ▸ hmem)
          have : (q :: rest)[j + 1] = rest[j] := by simp
          rw [this]
          simp [posOf, hne, ih (List.nodup_cons.mp hn).2 j hj]

theorem flatOf_congr {D : Shape} {c c' : String → Nat}
    (h : ∀ d ∈ D.map Prod.fst, c d = c' d) : flatOf D c = flatOf D c' := by
  induction D with
  | nil => rfl
  | cons p rest ih =>
      have h1 : c p.1 = c' p.1 := h p.1 (by simp)
      have h2 : ∀ d ∈ rest.map Prod.fst, c d = c' d := fun d hd => h d (by simp [hd])
      simp [flatOf, h1, ih h2]

theorem coordOf_cons_ne {p : String × Nat} {rest : Shape} {i : Nat} {d : String}
    (h : p.1 ≠ d) : coordOf (p :: rest) i d = coordOf rest (i % volume rest) d := by
  simp [coordOf, h]

/-- Unflattening then flattening a flat index over the same well-formed shape
is the identity. -/
theorem projIndex_self {S : Shape} (hn : (S.map Prod.fst).Nodup) :
    ∀ i : Nat, i < volume S → projIndex S S i = i := by
  induction S with
  | nil =>
      intro i hi
      simp only [volume] at hi
      interval_cases i
      rfl
  | cons p rest ih =>
      intro i hi
      have hvr : 0 < volume rest := by
        rcases Nat.eq_zero_or_pos (volume rest) with h0 | h0
        · rw [volume, h0, Nat.mul_zero] at hi; exact absurd hi (Nat.not_lt_zero i)
        · exact h0
      have hmod : i % volume rest < volume rest := Nat.mod_lt _ hvr
      have hnr : (rest.map Prod.fst).Nodup := (List.nodup_cons.mp hn).2
      have hcongr : ∀ d ∈ rest.map Prod.fst,
          coordOf (p :: rest) i d = coordOf rest (i % volume rest) d := by
        intro d hd
        have hne : p.1 ≠ d := by
          intro hEq
          exact (List.nodup_cons.mp hn).1 (hEq ▸ hd)
        exact coordOf_cons_ne hne
      have hrest : flatOf rest (coordOf (p :: rest) i) = i % volume rest := by
        rw [flatOf_congr hcongr]
        exact ih hnr (i % volume rest) hmod
      have hhead : coordOf (p :: rest) i p.1 = i / volume rest := by
        simp [coordOf]
      simp only [projIndex, flatOf, hhead, hrest]
      exact Nat.div_add_mod' i (volume rest)

/-- Modelled from the spec: a JSON-like property value ("tagged-union/JSON-value
type", here the scalar cases: numbers, strings, booleans). -/
inductive PropVal : Type where
  | num (n : Int)
  | str (s : String)
  | flag (b : Bool)
  deriving DecidableEq, Repr

/-- Modelled from the spec: the name of one scene directory.  PathNaming
allocates names with the fixed "sim_" prefix followed by an incrementing
index; directories with any other name are the non-conforming ones that
`list` only returns when `includeOther` is set. -/
inductive DirName : Type where
  | sim (i : Nat)
  | other (s : String)
  deriving DecidableEq, Repr

/-- Basename of a directory: conforming directories are "sim_" followed by
their index. -/
def DirName.basename : DirName → String
  | .sim i => "sim_" ++ Nat.repr i
  | .other s => s

/-- True exactly for directories that follow the PathNaming convention. -/
def DirName.conforming : DirName → Bool
  | .sim _ => true
  | .other _ => false

/-- Modelled from the spec: one physical scene directory.  `files` is the
FieldCodec state, keyed unambiguously by `(fieldName, frameIndex)` and holding
an opaque payload slice together with its metadata tag; `props` is the
PropertiesStore state.  Newer entries are consed at the front, so lookup
returns the most recent write (last-write-wins per key). -/
structure Directory (α : Type) : Type where
  files : List ((String × Nat) × (α × String))
  props : List (String × PropVal)
  deriving DecidableEq, Repr

/-- The empty directory created by PathNaming. -/
def emptyDir {α : Type} : Directory α := ⟨[], []⟩

/-- Modelled from the spec: the parent directory's state — the existing scene
directories, each with its content. -/
structure FS (α : Type) : Type where
  dirs : List (DirName × Directory α)
  deriving DecidableEq, Repr

/-- Modelled from the spec: a field payload at the Scene boundary: a named
batch shape, one opaque slice per flattened batch index, and a metadata tag
(e.g. the extrapolation tag) that must round-trip unchanged. -/
structure FieldData (α : Type) : Type where
  dims : Shape
  slices : List α
  meta : String
  deriving DecidableEq, Repr

/-- Modelled from the spec: a Scene is a lightweight handle: an ordered list
of physical directories whose count equals the volume of its batch shape. -/
structure Scene : Type where
  paths : List DirName
  shape : Shape
  deriving DecidableEq, Repr

/-- Two Scenes are equal iff their path sets are equal (order-independent). -/
def sceneEq (s t : Scene) : Prop :=
  s.paths ⊆ t.paths ∧ t.paths ⊆ s.paths

instance (s t : Scene) : Decidable (sceneEq s t) :=
  inferInstanceAs (Decidable (_ ∧ _))

/-- Broadcast a field payload to a larger shape `S` containing its dimensions:
slice `i` of the result is the slice of `f` at the projection of `i` onto
`f.dims`.  This is the logical result of reading back data that was
distributed over directories indexed by `S`. -/
def bcast {α : Type} [Inhabited α] (S : Shape) (f : FieldData α) : FieldData α :=
  ⟨S, (List.range (volume S)).map (fun i => (f.slices[projIndex S f.dims i]?).getD default), f.meta⟩

/-- Equality of field payloads in the sense of the repository's named-tensor
semantics (`field.assert_close`): equal metadata, and the two payloads agree
slice-for-slice once both are broadcast over a common well-formed super-shape
of their batch dimensions. -/
def FieldData.equivalent {α : Type} [Inhabited α] (f g : FieldData α) : Prop :=
  f.meta = g.meta ∧
    ∃ M : Shape, okShape M ∧ SubShape f.dims M ∧ SubShape g.dims M ∧ bcast M f = bcast M g

/-- Error taxonomy of the spec: filesystem errors, absent fields/frames, and
impossible batch-shape reconciliation. -/
inductive Err : Type where
  | ioError
  | notFound
  | shapeMismatch
  deriving DecidableEq, Repr

/-- Modelled from the spec: PathNaming's next free index under the parent
directory, determined by probing the existing directory names (no in-memory
counter): one past the largest allocated "sim_" index. -/
def freshBase {α : Type} (fs : FS α) : Nat :=
  ((fs.dirs.filterMap (fun nd =>
    match nd.1 with
    | .sim i => some i
    | .other _ => none)).foldr max 0) + 1

/-- Modelled from the spec: `addDims` folds the named dimensions of incoming
data into the reconciler's state: a dimension already present (in the Scene's
shape `B` or among the extras collected so far) must have the same size, else
the shapes are incompatible; a new dimension is appended to the extras. -/
def addDims (B : Shape) : Shape → Shape → Option Shape
  | extras, [] => some extras
  | extras, p :: rest =>
    match alookup p.1 B with
    | some m => if p.2 = m then addDims B extras rest else none
    | none =>
      match alookup p.1 extras with
      | some m => if p.2 = m then addDims B extras rest else none
      | none => addDims B (extras ++ [p]) rest

/-- Modelled from the spec: the logical batch shape `S` derived from the data
being written: the incoming dimensions of all fields merged with the Scene's
batch shape `B`; new dimensions become outermost axes (so that duplication is
cyclic), the Scene's own dimensions stay innermost.  `none` when named
dimensions collide with incompatible sizes. -/
def mergeAll (B : Shape) (ds : List Shape) : Option Shape :=
  (ds.foldl (fun acc D => acc.bind (fun e => addDims B e D)) (some [])).map (· ++ B)

/-- Modelled from the spec: a field's own batch volume must be an integer
multiple or divisor of the physical directory count, else reconciliation
fails with `ShapeMismatch`. -/
def volCompat (v P : Nat) : Bool :=
  (P % v == 0) || (v % P == 0)

/-- Modelled from the spec: `create(parentDir, batchShapeSpec)` allocates
`product(spec)` fresh directories via PathNaming and returns a Scene with the
given batch shape and empty field/property state. -/
def Scene.create {α : Type} (fs : FS α) (spec : Shape) : FS α × Scene :=
  let base := freshBase fs
  (⟨fs.dirs ++ (List.range (volume spec)).map
      (fun j => (DirName.sim (base + j), (emptyDir : Directory α)))⟩,
   ⟨(List.range (volume spec)).map (fun j => DirName.sim (base + j)), spec⟩)

/-- Modelled from the spec: `at(pathOrPaths)` loads an existing Scene from an
explicit ordered list of paths; it fails with an `IOError`-class error if any
path does not exist. -/
def Scene.atPaths {α : Type} (fs : FS α) (ps : List DirName) : Except Err Scene :=
  if ps.isEmpty then .error .ioError
  else if ps.all (fun p => (alookup p fs.dirs).isSome) then
    .ok ⟨ps, if ps.length = 1 then [] else [("batch", ps.length)]⟩
  else .error .ioError

/-- Modelled from the spec: `remove()` deletes every physical directory
backing the Scene. -/
def Scene.remove {α : Type} (fs : FS α) (sc : Scene) : FS α :=
  ⟨fs.dirs.filter (fun nd => !decide (nd.1 ∈ sc.paths))⟩

/-- Modelled from the spec: `list(parentDir, includeOther)` returns one
(degenerate single-directory) Scene per directory under the parent;
non-conforming directories are included only when `includeOther` is set. -/
def Scene.listScenes {α : Type} (fs : FS α) (includeOther : Bool) : List Scene :=
  fs.dirs.filterMap (fun nd =>
    if nd.1.conforming || includeOther then some ⟨[nd.1], []⟩ else none)

/-- Payload stored for field `nm` at frame `fr` in directory `p`, if any. -/
def getPayload {α : Type} (fs : FS α) (p : DirName) (nm : String) (fr : Nat) :
    Option (α × String) :=
  (alookup p fs.dirs).bind (fun d => alookup (nm, fr) d.files)

/-- Modelled from the spec (BatchReconciler, case 3): cyclically duplicate the
existing physical directories — property and metadata state copied into
freshly allocated directories via PathNaming — until the physical count
equals `V`.  The original directories stay first (outermost new-axis index 0),
the copy for overall position `P + j` holds the state of directory `j mod P`. -/
def duplicateDirs {α : Type} (fs : FS α) (paths : List DirName) (V : Nat) :
    FS α × List DirName :=
  let P := paths.length
  let base := freshBase fs
  (⟨fs.dirs ++ (List.range (V - P)).map
      (fun j => (DirName.sim (base + j),
        ((alookup (paths.getD (j % P) (DirName.sim 0)) fs.dirs).getD emptyDir)))⟩,
   paths ++ (List.range (V - P)).map (fun j => DirName.sim (base + j)))

/-- Write, into directory state `d`, one file per field: the slice of the
field at the projection of directory position `i` (a flat index of the
reconciled shape `S`) onto the field's own dimensions, with its metadata. -/
def stampDir {α : Type} [Inhabited α] (S : Shape) (fields : List (String × FieldData α))
    (frame i : Nat) (d : Directory α) : Directory α :=
  fields.foldl (fun d' nf =>
    { d' with files := ((nf.1, frame),
        ((nf.2.slices[projIndex S nf.2.dims i]?).getD default, nf.2.meta)) :: d'.files }) d

/-- Distribute all fields over the (already duplicated) directories: the
directory at position `i` of `newPaths` receives slice `i`. -/
def writeSlices {α : Type} [Inhabited α] (fs : FS α) (newPaths : List DirName)
    (S : Shape) (fields : List (String × FieldData α)) (frame : Nat) : FS α :=
  ⟨fs.dirs.map (fun nd =>
    (nd.1, if nd.1 ∈ newPaths then stampDir S fields frame (posOf nd.1 newPaths) nd.2 else nd.2))⟩

/-- Modelled from the spec: `write(fieldsMapping, frameIndex)` resolves the
incoming batch shape against the physical directory count (BatchReconciler):
each field's batch volume must be an integer multiple or divisor of the
current physical count `P`, and named dimensions must not collide with
incompatible sizes, else the write fails with `ShapeMismatch` and no
directory is created or modified; otherwise the directories are cyclically
duplicated up to the volume of the merged logical shape `S` and every
directory receives its slice of every field for the given frame. -/
def Scene.write {α : Type} [Inhabited α] (fs : FS α) (sc : Scene)
    (fields : List (String × FieldData α)) (frame : Nat) : Except Err (FS α × Scene) :=
  if fields.all (fun nf => volCompat (volume nf.2.dims) sc.paths.length) then
    match mergeAll sc.shape (fields.map (fun nf => nf.2.dims)) with
    | none => .error .shapeMismatch
    | some S =>
      let dup := duplicateDirs fs sc.paths (volume S)
      .ok (writeSlices dup.1 dup.2 S fields frame, ⟨dup.2, S⟩)
  else .error .shapeMismatch

/-- State view of `write`: a failed write leaves the filesystem and the Scene
untouched. -/
def Scene.writeS {α : Type} [Inhabited α] (fs : FS α) (sc : Scene)
    (fields : List (String × FieldData α)) (frame : Nat) : FS α × Scene :=
  match Scene.write fs sc fields frame with
  | .ok r => r
  | .error _ => (fs, sc)

/-- Read the per-directory payloads of one field at one frame, in
physical-directory order; `none` if any directory lacks the file. -/
def readSlices {α : Type} (fs : FS α) (nm : String) (fr : Nat) :
    List DirName → Option (List (α × String))
  | [] => some []
  | p :: ps =>
    match getPayload fs p nm fr, readSlices fs nm fr ps with
    | some v, some l => some (v :: l)
    | _, _ => none

/-- Modelled from the spec: `read(fieldName)` reassembles the per-directory
payloads, in physical-directory order, into one logical batched result with
the Scene's batch shape, carrying the stored metadata; it fails with a
`NotFound`-class error if the field is absent. -/
def Scene.read {α : Type} [Inhabited α] (fs : FS α) (sc : Scene) (nm : String)
    (fr : Nat) : Except Err (FieldData α) :=
  match readSlices fs nm fr sc.paths with
  | none => .error .notFound
  | some l => .ok ⟨sc.shape, l.map Prod.fst, ((l.head?).map Prod.snd).getD ""⟩

/-- Modelled from the spec: the properties of a (possibly batched) Scene are
those of its first (authoritative) directory. -/
def propsOf {α : Type} (fs : FS α) (sc : Scene) : List (String × PropVal) :=
  match sc.paths with
  | [] => []
  | p :: _ => ((alookup p fs.dirs).map Directory.props).getD []

/-- Look up one property key of a Scene. -/
def propLookup {α : Type} (fs : FS α) (sc : Scene) (k : String) : Option PropVal :=
  alookup k (propsOf fs sc)

/-- Modelled from the spec: `put(path, key, value)` merges a single key into
the persisted property map of the Scene's authoritative directory
(last-write-wins per key). -/
def Scene.putProperty {α : Type} (fs : FS α) (sc : Scene) (k : String) (v : PropVal) :
    FS α :=
  match sc.paths with
  | [] => fs
  | p :: _ =>
    ⟨fs.dirs.map (fun nd =>
      (nd.1, if nd.1 = p then { nd.2 with props := (k, v) :: nd.2.props } else nd.2))⟩

/-- Modelled from the spec: `putAll(path, mapping, **overrides)` merges many
keys in one persisted write; explicit keyword overrides take precedence over
same-named keys of the mapping. -/
def Scene.putProperties {α : Type} (fs : FS α) (sc : Scene)
    (m o : List (String × PropVal)) : FS α :=
  (m ++ o).foldl (fun fs' kv => Scene.putProperty fs' sc kv.1 kv.2) fs

/-- First defined alternative of two optional values. -/
def orO {β : Type} (a b : Option β) : Option β :=
  match a with
  | some v => some v
  | none => b

theorem alookup_append_or {κ β : Type} [DecidableEq κ] (k : κ) (l r : List (κ × β)) :
    alookup k (l ++ r) = orO (alookup k l) (alookup k r) := by
  cases h : alookup k l with
  | some v => rw [alookup_append_left h]; rfl
  | none => rw [alookup_append_right h]; rfl

theorem le_foldr_max {l : List Nat} {a : Nat} (h : a ∈ l) : a ≤ l.foldr max 0 := by
  induction l with
  | nil => simp at h
  | cons b rest ih =>
      rcases List.mem_cons.mp h with rfl | hr
      · exact le_max_left _ _
      · exact le_trans (ih hr) (le_max_right _ _)

theorem sim_mem_lt {α : Type} {fs : FS α} {i : Nat} {d : Directory α}
    (h : (DirName.sim i, d) ∈ fs.dirs) : i < freshBase fs := by
  have hmem : i ∈ fs.dirs.filterMap (fun nd =>
      match nd.1 with
      | .sim i => some i
      | .other _ => none) :=
    List.mem_filterMap.mpr ⟨(DirName.sim i, d), h, rfl⟩
  exact Nat.lt_succ_of_le (le_foldr_max hmem)

theorem fresh_alookup_none {α : Type} (fs : FS α) (j : Nat) :
    alookup (DirName.sim (freshBase fs + j)) fs.dirs = none := by
  cases h : alookup (DirName.sim (freshBase fs + j)) fs.dirs with
  | none => rfl
  | some d =>
      have := sim_mem_lt (alookup_mem h)
      omega

theorem alookup_simRange {β : Type} (base n j : Nat) (c : Nat → β) :
    alookup (DirName.sim (base + j))
        ((List.range n).map (fun q => (DirName.sim (base + q), c q)))
      = if j < n then some (c j) else none := by
  induction n with
  | zero => simp [alookup]
  | succ n ih =>
      rw [List.range_succ, List.map_append]
      by_cases hj : j < n
      · have hl : alookup (DirName.sim (base + j))
            ((List.range n).map (fun q => (DirName.sim (base + q), c q))) = some (c j) := by
          rw [ih]; simp [hj]
        rw [alookup_append_left hl]
        simp [Nat.lt_succ_of_lt hj]
      · have hleft : alookup (DirName.sim (base + j))
            ((List.range n).map (fun q => (DirName.sim (base + q), c q))) = none := by
          rw [ih]; simp [hj]
        rw [alookup_append_right hleft]
        by_cases hjn : j = n
        · subst hjn
          simp [alookup]
        · have hne : DirName.sim (base + n) ≠ DirName.sim (base + j) := by
            intro hEq
            injection hEq with hEq2
            omega
          have : ¬ j < n + 1 := by omega
          simp [alookup, hne, this]

theorem create_paths {α : Type} (fs : FS α) (spec : Shape) :
    (Scene.create fs spec).2.paths
      = (List.range (volume spec)).map (fun j => DirName.sim (freshBase fs + j)) := rfl

theorem create_shape {α : Type} (fs : FS α) (spec : Shape) :
    (Scene.create fs spec).2.shape = spec := rfl

theorem create_paths_len {α : Type} (fs : FS α) (spec : Shape) :
    (Scene.create fs spec).2.paths.length = volume spec := by
  rw [create_paths]; simp

theorem create_paths_nodup {α : Type} (fs : FS α) (spec : Shape) :
    (Scene.create fs spec).2.paths.Nodup := by
  rw [create_paths]
  refine List.Nodup.map ?_ (List.nodup_range _)
  intro a b hEq
  injection hEq with hEq2
  omega

theorem create_present {α : Type} (fs : FS α) (spec : Shape) :
    ∀ p ∈ (Scene.create fs spec).2.paths,
      (alookup p (Scene.create fs spec).1.dirs).isSome = true := by
  intro p hp
  rw [create_paths] at hp
  rcases List.mem_map.mp hp with ⟨j, hj, rfl⟩
  have hjlt : j < volume spec := List.mem_range.mp hj
  show (alookup (DirName.sim (freshBase fs + j))
    (fs.dirs ++ (List.range (volume spec)).map
      (fun q => (DirName.sim (freshBase fs + q), (emptyDir : Directory α))))).isSome = true
  rw [alookup_append_right (fresh_alookup_none fs j),
      alookup_simRange (freshBase fs) (volume spec) j (fun _ => (emptyDir : Directory α))]
  simp [hjlt]

theorem dup_paths {α : Type} (fs : FS α) (paths : List DirName) (V : Nat) :
    (duplicateDirs fs paths V).2
      = paths ++ (List.range (V - paths.length)).map (fun j => DirName.sim (freshBase fs + j)) := rfl

theorem dup_len {α : Type} (fs : FS α) (paths : List DirName) (V : Nat)
    (h : paths.length ≤ V) : (duplicateDirs fs paths V).2.length = V := by
  rw [dup_paths]
  simp
  omega

theorem mem_paths_not_fresh {α : Type} {fs : FS α} {paths : List DirName} {p : DirName}
    (hpr : ∀ q ∈ paths, (alookup q fs.dirs).isSome = true) (hp : p ∈ paths)
    {j : Nat} : p ≠ DirName.sim (freshBase fs + j) := by
  intro hEq
  subst hEq
  have h1 := hpr _ hp
  rw [fresh_alookup_none fs j] at h1
  simp at h1

theorem dup_nodup {α : Type} (fs : FS α) (paths : List DirName) (V : Nat)
    (hnd : paths.Nodup)
    (hpr : ∀ q ∈ paths, (alookup q fs.dirs).isSome = true) :
    (duplicateDirs fs paths V).2.Nodup := by
  rw [dup_paths]
  refine List.Nodup.append hnd ?_ ?_
  · refine List.Nodup.map ?_ (List.nodup_range _)
    intro a b hEq
    injection hEq with hEq2
    omega
  · intro p hp hp2
    rcases List.mem_map.mp hp2 with ⟨j, _, rfl⟩
    exact mem_paths_not_fresh hpr hp rfl

theorem dup_present {α : Type} (fs : FS α) (paths : List DirName) (V : Nat)
    (hpr : ∀ q ∈ paths, (alookup q fs.dirs).isSome = true) :
    ∀ p ∈ (duplicateDirs fs paths V).2,
      (alookup p (duplicateDirs fs paths V).1.dirs).isSome = true := by
  intro p hp
  rw [dup_paths] at hp
  rcases List.mem_append.mp hp with hmem | hmem
  · have h1 := hpr _ hmem
    rcases Option.isSome_iff_exists.mp h1 with ⟨d, hd⟩
    show (alookup p (fs.dirs ++ _)).isSome = true
    rw [alookup_append_left hd]
    rfl
  · rcases List.mem_map.mp hmem with ⟨j, hj, rfl⟩
    have hjlt : j < V - paths.length := List.mem_range.mp hj
    show (alookup (DirName.sim (freshBase fs + j)) (fs.dirs ++ (List.range (V - paths.length)).map
      (fun q => (DirName.sim (freshBase fs + q),
        ((alookup (paths.getD (q % paths.length) (DirName.sim 0)) fs.dirs).getD emptyDir))))).isSome = true
    rw [alookup_append_right (fresh_alookup_none fs j),
        alookup_simRange]
    simp [hjlt]

theorem stamp_miss {α : Type} [Inhabited α] {S : Shape} {fields : List (String × FieldData α)}
    {frame i : Nat} {nm : String} {fr : Nat} (h : nm ∉ fields.map Prod.fst) :
    ∀ d : Directory α,
      alookup (nm, fr) (stampDir S fields frame i d).files = alookup (nm, fr) d.files := by
  induction fields with
  | nil => intro d; rfl
  | cons nf rest ih =>
      intro d
      simp only [List.map_cons, List.mem_cons] at h
      push_neg at h
      show alookup (nm, fr) (stampDir S rest frame i _).files = _
      rw [ih h.2]
      have hne : (nf.1, frame) ≠ (nm, fr) := by
        intro hEq
        exact h.1 (congrArg Prod.fst hEq).symm
      simp [alookup, hne]

theorem stamp_hit {α : Type} [Inhabited α] {S : Shape} {fields : List (String × FieldData α)}
    {frame i : Nat} {nm : String} {f : FieldData α}
    (hn : (fields.map Prod.fst).Nodup) (hm : (nm, f) ∈ fields) :
    ∀ d : Directory α,
      alookup (nm, frame) (stampDir S fields frame i d).files
        = some ((f.slices[projIndex S f.dims i]?).getD default, f.meta) := by
  induction fields with
  | nil => simp at hm
  | cons nf rest ih =>
      intro d
      rcases List.mem_cons.mp hm with hq | hr
      · subst hq
        have hnotin : nm ∉ rest.map Prod.fst := by
          simpa using (List.nodup_cons.mp hn).1
        show alookup (nm, frame) (stampDir S rest frame i _).files = _
        rw [stamp_miss hnotin]
        simp [alookup]
      · exact ih (List.nodup_cons.mp hn).2 hr _

theorem writeSlices_alookup {α : Type} [Inhabited α] (fs : FS α) (np : List DirName)
    (S : Shape) (fields : List (String × FieldData α)) (frame : Nat) (p : DirName) :
    alookup p (writeSlices fs np S fields frame).dirs
      = (alookup p fs.dirs).map
          (fun d => if p ∈ np then stampDir S fields frame (posOf p np) d else d) := by
  exact alookup_map_value p
    (fun q d => if q ∈ np then stampDir S fields frame (posOf q np) d else d) fs.dirs

theorem readSlices_eq {α : Type} {fs : FS α} {nm : String} {fr : Nat}
    {g : DirName → α × String} :
    ∀ ps : List DirName, (∀ p ∈ ps, getPayload fs p nm fr = some (g p)) →
      readSlices fs nm fr ps = some (ps.map g) := by
  intro ps
  induction ps with
  | nil => intro _; rfl
  | cons p rest ih =>
      intro h
      have hp := h p (by simp)
      have hr := ih (fun q hq => h q (by simp [hq]))
      simp [readSlices, hp, hr]

theorem map_posOf {β γ : Type} [DecidableEq β] {l : List β} (hn : l.Nodup) (h : Nat → γ) :
    l.map (fun p => h (posOf p l)) = (List.range l.length).map h := by
  apply List.ext_getElem
  · simp
  · intro i h1 h2
    simp only [List.getElem_map, List.getElem_range]
    rw [posOf_getElem hn i (by simpa using h1)]

/-- Core round-trip property of the modelled write: under the spec's
reconciliation preconditions, `write` succeeds, the Scene ends with
`volume S` physical directories (the merged logical shape), and reading any
written field reassembles it as its broadcast over `S`, metadata intact. -/
theorem write_read_ok {α : Type} [Inhabited α] (fs : FS α) (sc : Scene)
    (fields : List (String × FieldData α)) (frame : Nat) (S : Shape)
    (h1 : sc.paths.Nodup)
    (h2 : ∀ p ∈ sc.paths, (alookup p fs.dirs).isSome = true)
    (h3 : fields.all (fun nf => volCompat (volume nf.2.dims) sc.paths.length) = true)
    (h4 : mergeAll sc.shape (fields.map (fun nf => nf.2.dims)) = some S)
    (h5 : sc.paths.length ≤ volume S)
    (h6 : (fields.map Prod.fst).Nodup)
    (h7 : 0 < volume S) :
    Scene.write fs sc fields frame =
      .ok (writeSlices (duplicateDirs fs sc.paths (volume S)).1
             (duplicateDirs fs sc.paths (volume S)).2 S fields frame,
           ⟨(duplicateDirs fs sc.paths (volume S)).2, S⟩)
    ∧ (duplicateDirs fs sc.paths (volume S)).2.length = volume S
    ∧ ∀ nm f, (nm, f) ∈ fields →
        Scene.read (writeSlices (duplicateDirs fs sc.paths (volume S)).1
             (duplicateDirs fs sc.paths (volume S)).2 S fields frame)
          ⟨(duplicateDirs fs sc.paths (volume S)).2, S⟩ nm frame = .ok (bcast S f) := by
  refine ⟨?_, dup_len fs sc.paths (volume S) h5, ?_⟩
  · simp only [Scene.write, h3, if_true, h4]
  · intro nm f hm
    set np := (duplicateDirs fs sc.paths (volume S)).2 with hnp
    set fs1 := (duplicateDirs fs sc.paths (volume S)).1 with hfs1
    have hlen : np.length = volume S := dup_len fs sc.paths (volume S) h5
    have hnodup : np.Nodup := dup_nodup fs sc.paths (volume S) h1 h2
    have hpres : ∀ p ∈ np, (alookup p fs1.dirs).isSome = true :=
      dup_present fs sc.paths (volume S) h2
    have hpay : ∀ p ∈ np,
        getPayload (writeSlices fs1 np S fields frame) p nm frame
          = some (((f.slices[projIndex S f.dims (posOf p np)]?).getD default, f.meta)) := by
      intro p hp
      rcases Option.isSome_iff_exists.mp (hpres p hp) with ⟨d, hd⟩
      simp only [getPayload, writeSlices_alookup, hd, Option.map_some, Option.bind_some,
        if_pos hp]
      exact stamp_hit h6 hm d
    have hread := readSlices_eq np hpay
    rw [map_posOf hnodup
      (fun i => ((f.slices[projIndex S f.dims i]?).getD default, f.meta)), hlen] at hread
    show Scene.read _ (⟨np, S⟩ : Scene) nm frame = _
    simp only [Scene.read, hread]
    have hslices : ((List.range (volume S)).map
        (fun i => ((f.slices[projIndex S f.dims i]?).getD default, f.meta))).map Prod.fst
        = (List.range (volume S)).map (fun i => (f.slices[projIndex S f.dims i]?).getD default) := by
      rw [List.map_map]; rfl
    have hmeta : ((((List.range (volume S)).map
        (fun i => ((f.slices[projIndex S f.dims i]?).getD default, f.meta))).head?).map Prod.snd).getD ""
        = f.meta := by
      rcases Nat.exists_eq_add_of_lt h7 with ⟨n, hn⟩
      have : volume S = n + 1 := by omega
      rw [this, List.range_succ_eq_map]
      simp
    rw [hslices, hmeta]
    rfl

theorem bcast_eq_self {α : Type} [Inhabited α] {f : FieldData α}
    (hn : (f.dims.map Prod.fst).Nodup) (hl : f.slices.length = volume f.dims) :
    bcast f.dims f = f := by
  rcases f with ⟨D, sl, mt⟩
  simp only [bcast, FieldData.mk.injEq, and_true, true_and]
  apply List.ext_getElem
  · simpa using hl.symm
  · intro i hi1 hi2
    simp only [List.getElem_map, List.getElem_range]
    have hi : i < volume D := by simpa using hi1
    rw [projIndex_self hn i hi]
    have hlt : i < sl.length := by simpa [hl] using hi
    simp [List.getElem?_eq_getElem hlt]

theorem bcast_idem {α : Type} [Inhabited α] {S : Shape} (f : FieldData α)
    (hn : (S.map Prod.fst).Nodup) :
    bcast S (bcast S f) = bcast S f := by
  simp only [bcast]
  apply congrArg (fun l => FieldData.mk S l f.meta)
  apply List.ext_getElem
  · simp
  · intro i hi1 hi2
    simp only [List.getElem_map, List.getElem_range]
    have hi : i < volume S := by simpa using hi1
    rw [projIndex_self hn i hi]
    rw [List.getElem?_map]
    have hlt : i < (List.range (volume S)).length := by simpa using hi
    rw [List.getElem?_eq_getElem hlt]
    simp

/-- A payload is equivalent (in the named-tensor sense) to its broadcast over
any well-formed super-shape. -/
theorem equivalent_bcast {α : Type} [Inhabited α] {S : Shape} {f : FieldData α}
    (hS : okShape S) (hsub : SubShape f.dims S) :
    FieldData.equivalent f (bcast S f) := by
  refine ⟨rfl, S, hS, hsub, ?_, ?_⟩
  · intro p hp
    exact alookup_self hS.1 p hp
  · exact (bcast_idem f hS.1).symm

theorem putProperty_pres {α : Type} (fs : FS α) (sc : Scene) (k : String) (v : PropVal)
    (q : DirName) :
    (alookup q (Scene.putProperty fs sc k v).dirs).isSome = (alookup q fs.dirs).isSome := by
  rcases hsc : sc.paths with _ | ⟨p, rest⟩
  · simp [Scene.putProperty, hsc]
  · simp only [Scene.putProperty, hsc]
    rw [alookup_map_value q
      (fun n (d : Directory α) =>
        if n = p then { files := d.files, props := (k, v) :: d.props } else d)]
    cases alookup q fs.dirs <;> rfl

theorem putProperty_propLookup {α : Type} {fs : FS α} {sc : Scene} {k : String}
    {v : PropVal} (k' : String) (hne : sc.paths ≠ [])
    (hpr : ∀ p ∈ sc.paths, (alookup p fs.dirs).isSome = true) :
    propLookup (Scene.putProperty fs sc k v) sc k'
      = if k = k' then some v else propLookup fs sc k' := by
  rcases hsc : sc.paths with _ | ⟨p, rest⟩
  · exact absurd hsc hne
  · have hps : (alookup p fs.dirs).isSome = true := hpr p (by simp [hsc])
    rcases Option.isSome_iff_exists.mp hps with ⟨d, hd⟩
    simp only [propLookup, propsOf, Scene.putProperty, hsc]
    rw [alookup_map_value p
      (fun n (d' : Directory α) =>
        if n = p then { files := d'.files, props := (k, v) :: d'.props } else d'), hd]
    simp [alookup]

theorem putFold_propLookup {α : Type} {sc : Scene}
    (l : List (String × PropVal)) (k : String) (hne : sc.paths ≠ []) :
    ∀ fs : FS α, (∀ p ∈ sc.paths, (alookup p fs.dirs).isSome = true) →
      propLookup (l.foldl (fun fs' kv => Scene.putProperty fs' sc kv.1 kv.2) fs) sc k
        = orO (alookup k l.reverse) (propLookup fs sc k) := by
  induction l with
  | nil => intro fs _; rfl
  | cons kv rest ih =>
      intro fs hpr
      have hpr1 : ∀ p ∈ sc.paths,
          (alookup p (Scene.putProperty fs sc kv.1 kv.2).dirs).isSome = true := by
        intro p hp
        rw [putProperty_pres]
        exact hpr p hp
      have hstep := ih (Scene.putProperty fs sc kv.1 kv.2) hpr1
      show propLookup (rest.foldl _ (Scene.putProperty fs sc kv.1 kv.2)) sc k = _
      rw [hstep, putProperty_propLookup k hne hpr]
      rw [List.reverse_cons, alookup_append_or]
      cases h : alookup k rest.reverse with
      | some w => rfl
      | none =>
          by_cases hk : kv.1 = k <;> simp [orO, alookup, hk]

theorem alookup_reverse_nodup {β : Type} {l : List (String × β)}
    (hn : (l.map Prod.fst).Nodup) (k : String) :
    alookup k l.reverse = alookup k l := by
  induction l with
  | nil => rfl
  | cons p rest ih =>
      rw [List.map_cons] at hn
      have hn1 : p.1 ∉ rest.map Prod.fst := (List.nodup_cons.mp hn).1
      have hn2 : (rest.map Prod.fst).Nodup := (List.nodup_cons.mp hn).2
      rw [List.reverse_cons, alookup_append_or, ih hn2]
      by_cases hk : p.1 = k
      · have hnot : k ∉ rest.map Prod.fst := hk ▸ hn1
        rw [alookup_eq_none hnot]
        simp [orO, alookup, hk]
      · cases h : alookup k rest <;> simp [orO, alookup, hk, h]

theorem remove_alookup {α : Type} {fs : FS α} {sc : Scene} {p : DirName}
    (h : p ∈ sc.paths) : alookup p (Scene.remove fs sc).dirs = none := by
  show alookup p (fs.dirs.filter (fun nd => !decide (nd.1 ∈ sc.paths))) = none
  induction fs.dirs with
  | nil => rfl
  | cons nd rest ih =>
      by_cases hmem : nd.1 ∈ sc.paths
      · simpa [List.filter_cons, hmem] using ih
      · have hne : nd.1 ≠ p := fun hEq => hmem (hEq ▸ h)
        simp only [List.filter_cons, hmem]
        simpa [alookup, hne] using ih

theorem atPaths_ok {α : Type} {fs : FS α} {ps : List DirName} (hne : ps ≠ [])
    (hpr : ∀ p ∈ ps, (alookup p fs.dirs).isSome = true) :
    Scene.atPaths fs ps
      = .ok ⟨ps, if ps.length = 1 then [] else [("batch", ps.length)]⟩ := by
  have h1 : ps.isEmpty = false := by
    cases ps
    · exact absurd rfl hne
    · rfl
  have h2 : ps.all (fun p => (alookup p fs.dirs).isSome) = true :=
    List.all_eq_true.mpr hpr
  simp [Scene.atPaths, h1, h2]

theorem atPaths_err {α : Type} {fs : FS α} {ps : List DirName} {p : DirName}
    (hp : p ∈ ps) (h : alookup p fs.dirs = none) :
    Scene.atPaths fs ps = .error .ioError := by
  have h2 : ps.all (fun p => (alookup p fs.dirs).isSome) = false := by
    rw [List.all_eq_false]
    exact ⟨p, hp, by simp [h]⟩
  rcases ps with _ | ⟨q, rest⟩
  · rfl
  · simp [Scene.atPaths, h2]

theorem orO_assoc {β : Type} (a b c : Option β) :
    orO (orO a b) c = orO a (orO b c) := by
  cases a <;> rfl

theorem orO_none_right {β : Type} (a : Option β) : orO a none = a := by
  cases a <;> rfl

theorem volCompat_false {v P : Nat} (h1 : ¬ v ∣ P) (h2 : ¬ P ∣ v) :
    volCompat v P = false := by
  simp only [volCompat, Bool.or_eq_false_iff, beq_eq_false_iff_ne, ne_eq]
  exact ⟨fun hmod => h1 (Nat.dvd_of_mod_eq_zero hmod),
         fun hmod => h2 (Nat.dvd_of_mod_eq_zero hmod)⟩

theorem propLookup_paths_eq {α : Type} {fs : FS α} {s t : Scene}
    (h : s.paths = t.paths) (k : String) : propLookup fs s k = propLookup fs t k := by
  unfold propLookup propsOf
  rw [h]

theorem putFold_pres {α : Type} {sc : Scene} (l : List (String × PropVal)) :
    ∀ (fs : FS α) (q : DirName),
      (alookup q (l.foldl (fun fs' kv => Scene.putProperty fs' sc kv.1 kv.2) fs).dirs).isSome
        = (alookup q fs.dirs).isSome := by
  induction l with
  | nil => intro fs q; rfl
  | cons kv rest ih =>
      intro fs q
      show (alookup q (rest.foldl _ (Scene.putProperty fs sc kv.1 kv.2)).dirs).isSome = _
      rw [ih (Scene.putProperty fs sc kv.1 kv.2) q]
      exact putProperty_pres fs sc kv.1 kv.2 q

/-- C1: for every Scene created with physical directory count `P = volume spec`,
writing field data whose merged logical batch volume is `k·P` for an integer
`k > 1` (each field volume-compatible with `P`, names merging to the
well-formed shape `S`) succeeds, leaves the Scene with `k·P` physical
directories, and a subsequent read of each written field returns data of
batch volume `k·P` equal (in the broadcast sense, metadata intact) to what
was written. -/
theorem c1_batch_duplication {α : Type} [Inhabited α] (fs0 : FS α) (spec : Shape)
    (fields : List (String × FieldData α)) (frame k : Nat) (S : Shape)
    (hspec : okShape spec)
    (h3 : fields.all (fun nf => volCompat (volume nf.2.dims) (volume spec)) = true)
    (h4 : mergeAll spec (fields.map (fun nf => nf.2.dims)) = some S)
    (hS : okShape S)
    (hsub : ∀ nf ∈ fields, SubShape nf.2.dims S)
    (h6 : (fields.map Prod.fst).Nodup)
    (hkP : volume S = k * volume spec)
    (hk : 1 < k) :
    ∃ fs' sc',
      Scene.write (Scene.create fs0 spec).1 (Scene.create fs0 spec).2 fields frame
        = .ok (fs', sc')
      ∧ sc'.paths.length = k * volume spec
      ∧ ∀ nm f, (nm, f) ∈ fields →
          ∃ r, Scene.read fs' sc' nm frame = .ok r
            ∧ volume r.dims = k * volume spec
            ∧ r.meta = f.meta
            ∧ FieldData.equivalent f r := by
  have hpl := create_paths_len fs0 spec
  have hP : 0 < volume spec := volume_pos hspec.2
  have h5 : (Scene.create fs0 spec).2.paths.length ≤ volume S := by
    rw [hpl, hkP]
    exact Nat.le_mul_of_pos_left _ (by omega)
  have h7 : 0 < volume S := by
    rw [hkP]
    exact Nat.mul_pos (by omega) hP
  have h3' : fields.all
      (fun nf => volCompat (volume nf.2.dims) (Scene.create fs0 spec).2.paths.length)
        = true := by
    rw [hpl]; exact h3
  have h4' : mergeAll (Scene.create fs0 spec).2.shape
      (fields.map (fun nf => nf.2.dims)) = some S := h4
  obtain ⟨hw, hlen, hreads⟩ := write_read_ok (Scene.create fs0 spec).1
    (Scene.create fs0 spec).2 fields frame S (create_paths_nodup fs0 spec)
    (create_present fs0 spec) h3' h4' h5 h6 h7
  refine ⟨_, _, hw, ?_, ?_⟩
  · show (duplicateDirs (Scene.create fs0 spec).1 (Scene.create fs0 spec).2.paths
      (volume S)).2.length = k * volume spec
    rw [hlen, hkP]
  · intro nm f hm
    refine ⟨bcast S f, hreads nm f hm, ?_, rfl, equivalent_bcast hS (hsub (nm, f) hm)⟩
    show volume S = k * volume spec
    exact hkP

/-- C2: for every field payload `f`, field name and frame index, writing
`{name: f}` to a Scene and then reading `name` at the same frame returns data
equal to `f` in the repository's named-tensor sense (exactly equal when the
merged shape is the payload's own shape), with the attached metadata (the
extrapolation tag) preserved unchanged. -/
theorem c2_field_roundtrip {α : Type} [Inhabited α] (fs : FS α) (sc : Scene)
    (nm : String) (f : FieldData α) (frame : Nat) (S : Shape)
    (h1 : sc.paths.Nodup)
    (h2 : ∀ p ∈ sc.paths, (alookup p fs.dirs).isSome = true)
    (h3 : volCompat (volume f.dims) sc.paths.length = true)
    (h4 : mergeAll sc.shape [f.dims] = some S)
    (h5 : sc.paths.length ≤ volume S)
    (h7 : 0 < volume S)
    (hS : okShape S)
    (hsub : SubShape f.dims S) :
    ∃ fs' sc', Scene.write fs sc [(nm, f)] frame = .ok (fs', sc')
      ∧ ∃ r, Scene.read fs' sc' nm frame = .ok r
        ∧ r.meta = f.meta
        ∧ FieldData.equivalent f r
        ∧ (S = f.dims → f.slices.length = volume f.dims → r = f) := by
  have h3' : ([(nm, f)]).all
      (fun nf => volCompat (volume nf.2.dims) sc.paths.length) = true := by
    simpa using h3
  have h4' : mergeAll sc.shape (([(nm, f)]).map (fun nf => nf.2.dims)) = some S := by
    simpa using h4
  have h6 : (([(nm, f)]).map Prod.fst).Nodup := by simp
  obtain ⟨hw, hlen, hreads⟩ := write_read_ok fs sc [(nm, f)] frame S h1 h2 h3' h4' h5 h6 h7
  refine ⟨_, _, hw, bcast S f, hreads nm f (by simp), rfl,
    equivalent_bcast hS hsub, ?_⟩
  intro hSD hlf
  subst hSD
  exact bcast_eq_self hS.1 hlf

/-- C3: for every Scene with physical directory count `P`, a write whose
logical batch volume is neither an integer multiple nor an integer divisor of
`P` fails with the `ShapeMismatch`-class error, and the failed write leaves
the filesystem and the Scene (hence the physical directory count) unchanged:
no directory is created or modified. -/
theorem c3_incompatible_shape {α : Type} [Inhabited α] (fs : FS α) (sc : Scene)
    (nm : String) (f : FieldData α) (frame : Nat)
    (hnm : ¬ (volume f.dims ∣ sc.paths.length))
    (hnd : ¬ (sc.paths.length ∣ volume f.dims)) :
    Scene.write fs sc [(nm, f)] frame = .error .shapeMismatch
    ∧ Scene.writeS fs sc [(nm, f)] frame = (fs, sc) := by
  have hvc : volCompat (volume f.dims) sc.paths.length = false := volCompat_false hnm hnd
  have hall : ([(nm, f)]).all
      (fun nf => volCompat (volume nf.2.dims) sc.paths.length) = false := by
    simpa using hvc
  have hw : Scene.write fs sc [(nm, f)] frame = .error .shapeMismatch := by
    simp [Scene.write, hall]
  exact ⟨hw, by simp [Scene.writeS, hw]⟩

/-- C4: for every valid batch-shape spec, `create` returns a Scene whose
number of paths equals the product of the sizes of the spec, whose batch
shape is the spec itself (names preserved in order), and `at` applied to the
Scene's paths returns a Scene equal to it (path-set equality). -/
theorem c4_create_at {α : Type} (fs : FS α) (spec : Shape) (hok : okShape spec) :
    (Scene.create fs spec).2.paths.length = volume spec
    ∧ (Scene.create fs spec).2.shape = spec
    ∧ ∃ sc', Scene.atPaths (Scene.create fs spec).1 (Scene.create fs spec).2.paths
        = .ok sc' ∧ sceneEq sc' (Scene.create fs spec).2 := by
  have hlen := create_paths_len fs spec
  have hpos : 0 < volume spec := volume_pos hok.2
  have hne : (Scene.create fs spec).2.paths ≠ [] := by
    intro h0
    rw [h0] at hlen
    simp at hlen
    omega
  refine ⟨hlen, rfl, ⟨(Scene.create fs spec).2.paths,
    if (Scene.create fs spec).2.paths.length = 1 then []
    else [("batch", (Scene.create fs spec).2.paths.length)]⟩,
    atPaths_ok hne (create_present fs spec), ?_, ?_⟩
  · exact fun p hp => hp
  · exact fun p hp => hp

/-- C5: after `remove()` succeeds, `at` applied to any previously valid path
or path-set of that Scene fails with the `IOError`-class error. -/
theorem c5_remove_at {α : Type} (fs : FS α) (sc : Scene) (ps : List DirName)
    (hsub : ∀ p ∈ ps, p ∈ sc.paths) :
    Scene.atPaths (Scene.remove fs sc) ps = .error .ioError := by
  rcases ps with _ | ⟨p, rest⟩
  · rfl
  · exact atPaths_err (List.mem_cons_self p rest)
      (remove_alookup (hsub p (List.mem_cons_self p rest)))

/-- C6: for every mapping `m` of JSON-like values, `putAll(m)` followed by
`load()` returns `m`; keys written by successive calls accumulate (later
writes of a same-named key overwrite earlier ones — the merge formula below:
overrides first, then the mapping, then the previous state), explicit
keyword overrides take precedence over same-named keys of the mapping, and
all written keys survive reloading the Scene from its paths. -/
theorem c6_properties {α : Type} (fs : FS α) (sc : Scene)
    (m o : List (String × PropVal))
    (hne : sc.paths ≠ [])
    (hpr : ∀ p ∈ sc.paths, (alookup p fs.dirs).isSome = true)
    (hm : (m.map Prod.fst).Nodup) (ho : (o.map Prod.fst).Nodup) :
    (∀ k, propLookup (Scene.putProperties fs sc m o) sc k
        = orO (alookup k o) (orO (alookup k m) (propLookup fs sc k)))
    ∧ ((∀ k, propLookup fs sc k = none) →
        ∀ k, propLookup (Scene.putProperties fs sc m []) sc k = alookup k m)
    ∧ ∃ sc'', Scene.atPaths (Scene.putProperties fs sc m o) sc.paths = .ok sc''
        ∧ ∀ k, propLookup (Scene.putProperties fs sc m o) sc'' k
            = propLookup (Scene.putProperties fs sc m o) sc k := by
  have hmerge : ∀ k, propLookup (Scene.putProperties fs sc m o) sc k
      = orO (alookup k o) (orO (alookup k m) (propLookup fs sc k)) := by
    intro k
    show propLookup ((m ++ o).foldl _ fs) sc k = _
    rw [putFold_propLookup (m ++ o) k hne fs hpr, List.reverse_append,
      alookup_append_or, alookup_reverse_nodup hm, alookup_reverse_nodup ho,
      orO_assoc]
  refine ⟨hmerge, ?_, ?_⟩
  · intro hfresh k
    show propLookup ((m ++ []).foldl _ fs) sc k = _
    rw [List.append_nil, putFold_propLookup m k hne fs hpr,
      alookup_reverse_nodup hm, hfresh k, orO_none_right]
  · have hpr' : ∀ p ∈ sc.paths,
        (alookup p (Scene.putProperties fs sc m o).dirs).isSome = true := by
      intro p hp
      show (alookup p ((m ++ o).foldl _ fs).dirs).isSome = true
      rw [putFold_pres (m ++ o) fs p]
      exact hpr p hp
    refine ⟨_, atPaths_ok hne hpr', ?_⟩
    intro k
    exact propLookup_paths_eq rfl k

/-- C7: the set of Scenes returned by `list(parentDir, includeOther := true)`
is a superset of the set returned with `includeOther := false`, and both
include (as degenerate single-directory scenes) every scene directory created
under that parent. -/
theorem c7_list_superset {α : Type} (fs : FS α) (spec : Shape) (b : Bool) :
    (∀ s ∈ Scene.listScenes fs false, s ∈ Scene.listScenes fs true)
    ∧ (∀ p ∈ (Scene.create fs spec).2.paths,
        (⟨[p], []⟩ : Scene) ∈ Scene.listScenes (Scene.create fs spec).1 b) := by
  constructor
  · intro s hs
    rcases List.mem_filterMap.mp hs with ⟨nd, hnd, hif⟩
    by_cases hc : nd.1.conforming
    · have hsome : some (⟨[nd.1], []⟩ : Scene) = some s := by
        simpa [hc] using hif
      refine List.mem_filterMap.mpr ⟨nd, hnd, ?_⟩
      simpa [hc] using hsome
    · simp [hc] at hif
  · intro p hp
    rw [create_paths] at hp
    rcases List.mem_map.mp hp with ⟨j, hj, rfl⟩
    have hjlt : j < volume spec := List.mem_range.mp hj
    have hmem : (DirName.sim (freshBase fs + j), (emptyDir : Directory α))
        ∈ (Scene.create fs spec).1.dirs := by
      show _ ∈ fs.dirs ++ (List.range (volume spec)).map
        (fun q => (DirName.sim (freshBase fs + q), (emptyDir : Directory α)))
      exact List.mem_append_right _ (List.mem_map.mpr ⟨j, hj, rfl⟩)
    refine List.mem_filterMap.mpr ⟨_, hmem, ?_⟩
    simp [DirName.conforming]

/-- C9: every scene directory allocated by `create` has a basename that
begins with the fixed prefix "sim_" (formalised: the basename is "sim_"
followed by some suffix). -/
theorem c9_sim_names {α : Type} (fs : FS α) (spec : Shape) :
    ∀ p ∈ (Scene.create fs spec).2.paths,
      ∃ rest, DirName.basename p = "sim_" ++ rest := by
  intro p hp
  rw [create_paths] at hp
  rcases List.mem_map.mp hp with ⟨j, _, rfl⟩
  exact ⟨Nat.repr (freshBase fs + j), rfl⟩

/-- Concrete scenario of `test_write_read_batch_batched_files`: a Scene
created with `count = 2`, one field with extra dimension `config = 3` and
another with extra dimension `vel = 2`. -/
def c10state : FS Int × Scene := Scene.create (⟨[]⟩ : FS Int) [("count", 2)]

/-- The two fields of the batched-files scenario, with differing batch shapes. -/
def c10fields : List (String × FieldData Int) :=
  [("smoke", ⟨[("count", 2), ("config", 3)], [1, 2, 3, 4, 5, 6], "B"⟩),
   ("vel", ⟨[("count", 2), ("vel", 2)], [7, 8, 9, 10], "Z"⟩)]

/-- C10 counterexample: the claim asserts that such a write succeeds without
forcing a common duplicated directory count.  In the modelled reconciler the
write does succeed, but it duplicates the physical directories up to the one
common merged volume 12 = 3·2·2, changing the count from 2 to 12. -/
theorem c10_counterexample :
    (Scene.write c10state.1 c10state.2 c10fields 0).isOk = true
    ∧ c10state.2.paths.length = 2
    ∧ (Scene.writeS c10state.1 c10state.2 c10fields 0).2.paths.length = 12
    ∧ ¬ (Scene.writeS c10state.1 c10state.2 c10fields 0).2.paths.length
        = c10state.2.paths.length := by decide

/-- C10 amended: a single write call may pass multiple fields whose batch
shapes differ from each other; the write succeeds, but it forces one common
duplicated directory count — the volume of the union of all written batch
dimensions merged with the Scene's shape — and reading each field afterwards
returns data equivalent (broadcast over that common shape, metadata intact)
to what was written for that field. -/
theorem c10_amended {α : Type} [Inhabited α] (fs0 : FS α) (spec : Shape)
    (fields : List (String × FieldData α)) (frame : Nat) (S : Shape)
    (h3 : fields.all (fun nf => volCompat (volume nf.2.dims) (volume spec)) = true)
    (h4 : mergeAll spec (fields.map (fun nf => nf.2.dims)) = some S)
    (hS : okShape S)
    (hsub : ∀ nf ∈ fields, SubShape nf.2.dims S)
    (h6 : (fields.map Prod.fst).Nodup)
    (h5 : volume spec ≤ volume S)
    (h7 : 0 < volume S) :
    ∃ fs' sc',
      Scene.write (Scene.create fs0 spec).1 (Scene.create fs0 spec).2 fields frame
        = .ok (fs', sc')
      ∧ sc'.paths.length = volume S
      ∧ ∀ nm f, (nm, f) ∈ fields →
          ∃ r, Scene.read fs' sc' nm frame = .ok r
            ∧ r.meta = f.meta
            ∧ FieldData.equivalent f r := by
  have hpl := create_paths_len fs0 spec
  have h5' : (Scene.create fs0 spec).2.paths.length ≤ volume S := by rw [hpl]; exact h5
  have h3' : fields.all
      (fun nf => volCompat (volume nf.2.dims) (Scene.create fs0 spec).2.paths.length)
        = true := by
    rw [hpl]; exact h3
  obtain ⟨hw, hlen, hreads⟩ := write_read_ok (Scene.create fs0 spec).1
    (Scene.create fs0 spec).2 fields frame S (create_paths_nodup fs0 spec)
    (create_present fs0 spec) h3' h4 h5' h6 h7
  refine ⟨_, _, hw, hlen, ?_⟩
  intro nm f hm
  exact ⟨bcast S f, hreads nm f hm, rfl, equivalent_bcast hS (hsub (nm, f) hm)⟩

/-- Concrete instance of the batch-duplication scenario
(`test_write_read_batch_duplicate`): a Scene created with `more = 2`, two
fields with batch dimension `count = 2`. -/
def c1fields : List (String × FieldData Int) :=
  [("smoke", ⟨[("count", 2)], [10, 20], "B"⟩),
   ("vel", ⟨[("count", 2)], [1, 2], "Z"⟩)]

/-- Witness for C1 at the concrete duplication scenario: `P = 2`, `k = 2`,
merged shape `count ⨯ more` of volume 4. -/
theorem c1_batch_duplication_witness :
    ∃ fs' sc',
      Scene.write (Scene.create (⟨[]⟩ : FS Int) [("more", 2)]).1
          (Scene.create (⟨[]⟩ : FS Int) [("more", 2)]).2 c1fields 0
        = .ok (fs', sc')
      ∧ sc'.paths.length = 2 * volume [("more", 2)]
      ∧ ∀ nm f, (nm, f) ∈ c1fields →
          ∃ r, Scene.read fs' sc' nm 0 = .ok r
            ∧ volume r.dims = 2 * volume [("more", 2)]
            ∧ r.meta = f.meta
            ∧ FieldData.equivalent f r :=
  c1_batch_duplication (⟨[]⟩ : FS Int) [("more", 2)] c1fields 0 2
    [("count", 2), ("more", 2)] (by decide) (by decide) (by decide) (by decide)
    (by decide) (by decide) (by decide) (by decide)

/-- Witness for C2 at the concrete unbatched round-trip scenario of
`test_write_read`. -/
theorem c2_field_roundtrip_witness :
    ∃ fs' sc', Scene.write (Scene.create (⟨[]⟩ : FS Int) []).1
          (Scene.create (⟨[]⟩ : FS Int) []).2
          [("smoke", ⟨[], [7], "BOUNDARY"⟩)] 0 = .ok (fs', sc')
      ∧ ∃ r, Scene.read fs' sc' "smoke" 0 = .ok r
        ∧ r.meta = FieldData.meta ⟨[], [7], "BOUNDARY"⟩
        ∧ FieldData.equivalent (⟨[], [7], "BOUNDARY"⟩ : FieldData Int) r
        ∧ (([] : Shape) = FieldData.dims (⟨[], [7], "BOUNDARY"⟩ : FieldData Int) →
            (FieldData.slices (⟨[], [7], "BOUNDARY"⟩ : FieldData Int)).length
              = volume (FieldData.dims (⟨[], [7], "BOUNDARY"⟩ : FieldData Int)) →
            r = ⟨[], [7], "BOUNDARY"⟩) :=
  c2_field_roundtrip (Scene.create (⟨[]⟩ : FS Int) []).1
    (Scene.create (⟨[]⟩ : FS Int) []).2 "smoke" ⟨[], [7], "BOUNDARY"⟩ 0 []
    (by decide) (by decide) (by decide) (by decide) (by decide) (by decide)
    (by decide) (by decide)

/-- Witness for C3: a field of batch volume 3 written into a Scene of
physical count 2 (3 is neither a multiple nor a divisor of 2). -/
theorem c3_incompatible_shape_witness :
    Scene.write (Scene.create (⟨[]⟩ : FS Int) [("a", 2)]).1
        (Scene.create (⟨[]⟩ : FS Int) [("a", 2)]).2
        [("f", ⟨[("b", 3)], [1, 2, 3], "B"⟩)] 0 = .error .shapeMismatch
    ∧ Scene.writeS (Scene.create (⟨[]⟩ : FS Int) [("a", 2)]).1
        (Scene.create (⟨[]⟩ : FS Int) [("a", 2)]).2
        [("f", ⟨[("b", 3)], [1, 2, 3], "B"⟩)] 0
      = ((Scene.create (⟨[]⟩ : FS Int) [("a", 2)]).1,
         (Scene.create (⟨[]⟩ : FS Int) [("a", 2)]).2) :=
  c3_incompatible_shape (Scene.create (⟨[]⟩ : FS Int) [("a", 2)]).1
    (Scene.create (⟨[]⟩ : FS Int) [("a", 2)]).2 "f" ⟨[("b", 3)], [1, 2, 3], "B"⟩ 0
    (by decide) (by decide)

/-- Witness for C4 at the end-to-end spec scenario `batch = 2, config = 3`
(volume 6). -/
theorem c4_create_at_witness :
    (Scene.create (⟨[]⟩ : FS Int) [("batch", 2), ("config", 3)]).2.paths.length
        = volume [("batch", 2), ("config", 3)]
    ∧ (Scene.create (⟨[]⟩ : FS Int) [("batch", 2), ("config", 3)]).2.shape
        = [("batch", 2), ("config", 3)]
    ∧ ∃ sc', Scene.atPaths (Scene.create (⟨[]⟩ : FS Int) [("batch", 2), ("config", 3)]).1
          (Scene.create (⟨[]⟩ : FS Int) [("batch", 2), ("config", 3)]).2.paths
        = .ok sc'
        ∧ sceneEq sc' (Scene.create (⟨[]⟩ : FS Int) [("batch", 2), ("config", 3)]).2 :=
  c4_create_at (⟨[]⟩ : FS Int) [("batch", 2), ("config", 3)] (by decide)

/-- Witness for C5: removing the created `batch = 2, config = 3` Scene makes
`at` fail on its full path list. -/
theorem c5_remove_at_witness :
    Scene.atPaths
        (Scene.remove (Scene.create (⟨[]⟩ : FS Int) [("batch", 2), ("config", 3)]).1
          (Scene.create (⟨[]⟩ : FS Int) [("batch", 2), ("config", 3)]).2)
        (Scene.create (⟨[]⟩ : FS Int) [("batch", 2), ("config", 3)]).2.paths
      = .error .ioError :=
  c5_remove_at (Scene.create (⟨[]⟩ : FS Int) [("batch", 2), ("config", 3)]).1
    (Scene.create (⟨[]⟩ : FS Int) [("batch", 2), ("config", 3)]).2
    (Scene.create (⟨[]⟩ : FS Int) [("batch", 2), ("config", 3)]).2.paths
    (fun _ hp => hp)

/-- Witness for C6 at the `test_properties` scenario: mapping
`{b: 2, c: 3}` with override `d = 4` on a fresh Scene. -/
theorem c6_properties_witness :
    (∀ k, propLookup (Scene.putProperties (Scene.create (⟨[]⟩ : FS Int) []).1
          (Scene.create (⟨[]⟩ : FS Int) []).2
          [("b", .num 2), ("c", .num 3)] [("d", .num 4)])
        (Scene.create (⟨[]⟩ : FS Int) []).2 k
        = orO (alookup k [("d", PropVal.num 4)])
            (orO (alookup k [("b", PropVal.num 2), ("c", PropVal.num 3)])
              (propLookup (Scene.create (⟨[]⟩ : FS Int) []).1
                (Scene.create (⟨[]⟩ : FS Int) []).2 k)))
    ∧ ((∀ k, propLookup (Scene.create (⟨[]⟩ : FS Int) []).1
          (Scene.create (⟨[]⟩ : FS Int) []).2 k = none) →
        ∀ k, propLookup (Scene.putProperties (Scene.create (⟨[]⟩ : FS Int) []).1
            (Scene.create (⟨[]⟩ : FS Int) []).2
            [("b", .num 2), ("c", .num 3)] [])
          (Scene.create (⟨[]⟩ : FS Int) []).2 k
          = alookup k [("b", PropVal.num 2), ("c", PropVal.num 3)])
    ∧ ∃ sc'', Scene.atPaths (Scene.putProperties (Scene.create (⟨[]⟩ : FS Int) []).1
          (Scene.create (⟨[]⟩ : FS Int) []).2
          [("b", .num 2), ("c", .num 3)] [("d", .num 4)])
        (Scene.create (⟨[]⟩ : FS Int) []).2.paths = .ok sc''
        ∧ ∀ k, propLookup (Scene.putProperties (Scene.create (⟨[]⟩ : FS Int) []).1
              (Scene.create (⟨[]⟩ : FS Int) []).2
              [("b", .num 2), ("c", .num 3)] [("d", .num 4)]) sc'' k
            = propLookup (Scene.putProperties (Scene.create (⟨[]⟩ : FS Int) []).1
              (Scene.create (⟨[]⟩ : FS Int) []).2
              [("b", .num 2), ("c", .num 3)] [("d", .num 4)])
              (Scene.create (⟨[]⟩ : FS Int) []).2 k :=
  c6_properties (Scene.create (⟨[]⟩ : FS Int) []).1 (Scene.create (⟨[]⟩ : FS Int) []).2
    [("b", .num 2), ("c", .num 3)] [("d", .num 4)]
    (by decide) (by decide) (by decide) (by decide)

/-- Witness for C7: the first directory of a freshly created `count = 2`
Scene is listed both with and without `includeOther`. -/
theorem c7_list_superset_witness :
    (⟨[DirName.sim 1], []⟩ : Scene)
        ∈ Scene.listScenes (Scene.create (⟨[]⟩ : FS Int) [("count", 2)]).1 false
    ∧ (⟨[DirName.sim 1], []⟩ : Scene)
        ∈ Scene.listScenes (Scene.create (⟨[]⟩ : FS Int) [("count", 2)]).1 true := by
  have h := c7_list_superset (⟨[]⟩ : FS Int) [("count", 2)] false
  have h2 := c7_list_superset (Scene.create (⟨[]⟩ : FS Int) [("count", 2)]).1
    [("count", 2)] false
  exact ⟨h.2 (DirName.sim 1) (by decide), h2.1 _ (h.2 (DirName.sim 1) (by decide))⟩

/-- Witness for C9: the single directory of a freshly created unbatched Scene
has basename "sim_" followed by its index. -/
theorem c9_sim_names_witness :
    ∃ rest, DirName.basename (DirName.sim 1) = "sim_" ++ rest :=
  c9_sim_names (⟨[]⟩ : FS Int) [] (DirName.sim 1) (by decide)

/-- Witness for the amended C10 at the batched-files scenario: the write
succeeds with the one common duplicated count 12 and each field reads back
equivalent to what was written. -/
theorem c10_amended_witness :
    ∃ fs' sc',
      Scene.write (Scene.create (⟨[]⟩ : FS Int) [("count", 2)]).1
          (Scene.create (⟨[]⟩ : FS Int) [("count", 2)]).2 c10fields 0
        = .ok (fs', sc')
      ∧ sc'.paths.length = volume [("config", 3), ("vel", 2), ("count", 2)]
      ∧ ∀ nm f, (nm, f) ∈ c10fields →
          ∃ r, Scene.read fs' sc' nm 0 = .ok r
            ∧ r.meta = f.meta
            ∧ FieldData.equivalent f r :=
  c10_amended (⟨[]⟩ : FS Int) [("count", 2)] c10fields 0
    [("config", 3), ("vel", 2), ("count", 2)]
    (by decide) (by decide) (by decide) (by decide) (by decide) (by decide) (by decide)

end PhiScene
